import Mathlib

/-!
Shallow embedding of the notary client core (package `client`, file
`client.go`, plus `trustmanager`'s `X509FileStore`) together with proofs
about the claims of the specification.

Conventions of the embedding:

* Each Go function that performs I/O is modelled as a Lean function over an
  "environment" record that fixes the outcome of every fallible sub-step
  (remote calls, key-store calls, marshalling, file-system writes).  The
  function body is a line-by-line translation of the Go control flow.
* Observable effects (network PUTs, completed serializations, passphrase
  callback invocations, cache writes) are collected in an event trace.
* Byte strings are `List Nat`; external hash and fingerprint functions are
  taken as explicit function arguments, never interpreted.
-/

deriving instance DecidableEq for Except

namespace Notary

/-- TUF top-level role names. -/
inductive RoleName
  | root
  | targets
  | snapshot
  | timestamp
deriving DecidableEq, Repr

/-- Errors that `bootstrapClient` can surface: `store.ErrMetaNotFound`
(the remote returned 404 for root) or any other error, tagged by a code. -/
inductive BootErr
  | notFound
  | other (code : Nat)
deriving DecidableEq, Repr

/-- Errors surfaced by `Publish` in the embedding.  Each constructor marks
the Go statement whose error return is taken. -/
inductive PubErr
  | notInitialized
  | toSignedErr
  | remoteErr (code : Nat)
  | updateErr
  | changelistErr
  | applyErr
  | passErr (code : Nat)
  | rootSignerErr
  | signRootErr
  | signTargetsErr
  | signSnapshotErr
  | remoteStoreErr
  | marshalErr (r : RoleName)
  | putErr (r : RoleName)
deriving DecidableEq, Repr

/-- Observable events of a `Publish` run: the passphrase callback firing, a
role body serialization completing, and a PUT to the remote being issued. -/
inductive Ev
  | passCallback
  | serialize (r : RoleName)
  | put (r : RoleName)
deriving DecidableEq, Repr

/-- Is the event a remote PUT? -/
def Ev.isPut : Ev → Bool
  | .put _ => true
  | _ => false

/-- Environment of one `Publish` run: the outcome of every fallible
sub-step, in the order the Go code performs them, plus the changelist
contents found on disk when `Publish` is called. -/
structure PublishEnv where
  bootstrapClient : Except BootErr Unit
  localLoadOk : Bool
  rootToSigned : Bool
  clientUpdate : Bool
  openChangelist : Bool
  applyOk : Bool
  rootDirtyOrNearExpiry : Bool
  getPass : Except Nat Unit
  getRootSigner : Bool
  signRoot : Bool
  signTargets : Bool
  signSnapshot : Bool
  getRemote : Bool
  marshalTargets : Bool
  marshalSnapshot : Bool
  marshalRoot : Bool
  putRoot : Bool
  putTargets : Bool
  putSnapshot : Bool
  changelist : List String
deriving DecidableEq, Repr

/-- `json.Marshal` calls of the upload phase of `Publish`: targets, then
snapshot, then (only when the root is to be uploaded) root.  Returns the
serialization events that completed and the first marshalling error. -/
def serPhase (e : PublishEnv) (u : Bool) : List Ev × Option PubErr :=
  if !e.marshalTargets then ([], some (.marshalErr .targets))
  else if !e.marshalSnapshot then ([.serialize .targets], some (.marshalErr .snapshot))
  else if u then
    if !e.marshalRoot then
      ([.serialize .targets, .serialize .snapshot], some (.marshalErr .root))
    else
      ([.serialize .targets, .serialize .snapshot, .serialize .root], none)
  else ([.serialize .targets, .serialize .snapshot], none)

/-- The two unconditional PUTs of `Publish`: targets then snapshot.  A PUT
event is recorded when the request is issued, before its outcome is known. -/
def putTS (e : PublishEnv) : List Ev × Option PubErr :=
  if !e.putTargets then ([.put .targets], some (.putErr .targets))
  else if !e.putSnapshot then
    ([.put .targets, .put .snapshot], some (.putErr .snapshot))
  else ([.put .targets, .put .snapshot], none)

/-- PUT sequence of `Publish`: root first when `u` (the `updateRoot` flag)
is set, then targets, then snapshot. -/
def putPhase (e : PublishEnv) (u : Bool) : List Ev × Option PubErr :=
  if u then
    if !e.putRoot then ([.put .root], some (.putErr .root))
    else
      match putTS e with
      | (evs, r) => (.put .root :: evs, r)
  else putTS e

/-- Upload phase of `Publish`: `SignTargets`, `SignSnapshot`,
`getRemoteStore`, then all marshalling, then the PUTs. -/
def uploadPhase (e : PublishEnv) (u : Bool) : List Ev × Option PubErr :=
  if !e.signTargets then ([], some .signTargetsErr)
  else if !e.signSnapshot then ([], some .signSnapshotErr)
  else if !e.getRemote then ([], some .remoteStoreErr)
  else
    match serPhase e u with
    | (se, some err) => (se, some err)
    | (se, none) =>
      match putPhase e u with
      | (pe, r) => (se ++ pe, r)

/-- Root re-signing block of `Publish`: when root is dirty or near expiry,
invoke the passphrase callback once, unlock the root signer and sign root,
setting `updateRoot`.  Returns events, the first error, and the resulting
`updateRoot` flag. -/
def resignPhase (e : PublishEnv) (u0 : Bool) : List Ev × Option PubErr × Bool :=
  if e.rootDirtyOrNearExpiry then
    match e.getPass with
    | .error n => ([.passCallback], some (.passErr n), u0)
    | .ok _ =>
      if !e.getRootSigner then ([.passCallback], some .rootSignerErr, u0)
      else if !e.signRoot then ([.passCallback], some .signRootErr, u0)
      else ([.passCallback], none, true)
  else ([], none, u0)

/-- Body of `Publish` after the bootstrap phase: open the changelist, apply
it, re-sign root if needed, then the upload phase. -/
def publishMain (e : PublishEnv) (u0 : Bool) : List Ev × Option PubErr :=
  if !e.openChangelist then ([], some .changelistErr)
  else if !e.applyOk then ([], some .applyErr)
  else
    match resignPhase e u0 with
    | (ce, some err, _) => (ce, some err)
    | (ce, none, u) =>
      match uploadPhase e u with
      | (ue, r) => (ce ++ ue, r)

/-- `Publish`.  Returns the event trace, the error result (`none` is a nil
return), and the changelist contents when `Publish` returns.  The Go code
contains no statement that removes or truncates changelist entries, so the
final component is the initial contents on every path. -/
def publish (e : PublishEnv) : List Ev × Option PubErr × List String :=
  match e.bootstrapClient with
  | .error .notFound =>
    if !e.localLoadOk then ([], some .notInitialized, e.changelist)
    else if !e.rootToSigned then ([], some .toSignedErr, e.changelist)
    else
      match publishMain e true with
      | (t, r) => (t, r, e.changelist)
  | .error (.other n) => ([], some (.remoteErr n), e.changelist)
  | .ok _ =>
    if !e.clientUpdate then ([], some .updateErr, e.changelist)
    else
      match publishMain e false with
      | (t, r) => (t, r, e.changelist)

/-- The value the `updateRoot` flag holds when the upload phase of
`Publish` is reached: set on the not-found fall-back path and whenever the
root re-sign block ran. -/
def updateRootFlag (e : PublishEnv) : Bool :=
  e.rootDirtyOrNearExpiry ||
    (match e.bootstrapClient with
     | .error .notFound => true
     | _ => false)

/-- The full PUT sequence of a run whose `updateRoot` flag is `u`. -/
def putsFull (u : Bool) : List Ev :=
  (if u then [Ev.put .root] else []) ++ [Ev.put .targets, Ev.put .snapshot]

/-- A fully successful environment with a non-empty changelist. -/
def envAllOk : PublishEnv where
  bootstrapClient := .ok ()
  localLoadOk := true
  rootToSigned := true
  clientUpdate := true
  openChangelist := true
  applyOk := true
  rootDirtyOrNearExpiry := false
  getPass := .ok ()
  getRootSigner := true
  signRoot := true
  signTargets := true
  signSnapshot := true
  getRemote := true
  marshalTargets := true
  marshalSnapshot := true
  marshalRoot := true
  putRoot := true
  putTargets := true
  putSnapshot := true
  changelist := ["add target t1"]

/-- Is the event a completed serialization? -/
def Ev.isSer : Ev → Bool
  | .serialize _ => true
  | _ => false

/-- Every event of the list is a completed serialization. -/
def serOnly (l : List Ev) : Prop := ∀ ev ∈ l, ev.isSer = true

/-- Every event of the list is an issued PUT. -/
def allPut (l : List Ev) : Prop := ∀ ev ∈ l, ev.isPut = true

/-- No event of the list is an issued PUT. -/
def noPut (l : List Ev) : Prop := ∀ ev ∈ l, ev.isPut = false

/-- A successful environment that requires a root re-sign (dirty root). -/
def envDirtyOk : PublishEnv :=
  { envAllOk with rootDirtyOrNearExpiry := true }

/-- An environment whose passphrase callback fails. -/
def envPassFail : PublishEnv :=
  { envAllOk with rootDirtyOrNearExpiry := true, getPass := .error 3 }

/-- An environment whose bootstrap fails with a non-NotFound error. -/
def envBootOther : PublishEnv :=
  { envAllOk with bootstrapClient := .error (.other 7) }

/-- Signature algorithm of an X.509 certificate, with the three SHA-1
algorithms the code filters distinguished from everything else. -/
inductive SigAlg
  | sha1RSA
  | sha1DSA
  | sha1ECDSA
  | strong (code : Nat)
deriving DecidableEq, Repr

/-- An X.509 certificate, keeping exactly the fields the client reads:
the raw DER bytes, the raw subject, the subject CommonName, the CA flags,
the expiry, the signature algorithm, and the SubjectKeyId. -/
structure Cert where
  raw : List Nat
  rawSubject : String
  commonName : String
  isCA : Bool
  basicConstraintsValid : Bool
  notAfter : Nat
  sigAlg : SigAlg
  subjectKeyId : Option (List Nat)
deriving DecidableEq, Repr

/-- Environment of one `validateRoot` run: the parsed root body (root-role
key ids, key material per id, signatures as pairs of key id and whether the
signature bytes verify), the GUN, and the external collaborators
(`pem.Decode`+`x509.ParseCertificates` as `parseLeafCert`,
`GetCertificateByFingerprint` success as `certStoreHas`,
`trustmanager.Verify` against the CA store as `caVerify`,
`trustmanager.FingerprintCert` as `fpr`). -/
structure RootEnv where
  gun : String
  keyIDs : List String
  keyMaterial : String → List Nat
  parseLeafCert : List Nat → Option Cert
  certStoreHas : String → Bool
  caVerify : Cert → Bool
  fpr : Cert → String
  sigs : List (String × Bool)

/-- Result of `validateRoot`: the unmarshalling error, the
"could not validate the path to a trusted root" error (the UntrustedRoot
kind), or a signature-verification failure from `signed.VerifyRoot`. -/
inductive RootErr
  | untrustedRoot
  | sigVerifyFail
deriving DecidableEq, Repr

/-- The set of root-role key ids `validateRoot` accepts: those whose key
material decodes to a leaf certificate that either is in the certificate
store under its content-hash fingerprint with CommonName equal to the GUN,
or chains to the CA store.  A key id failing to decode is skipped
(`continue` in the code). -/
def acceptedKeys (e : RootEnv) : List String :=
  e.keyIDs.filter fun fp =>
    match e.parseLeafCert (e.keyMaterial fp) with
    | none => false
    | some leaf =>
      (e.certStoreHas (e.fpr leaf) && leaf.commonName == e.gun) || e.caVerify leaf

/-- Modelled from the spec: `signed.VerifyRoot` (external gotuf library)
succeeds when at least `threshold` signatures are valid and made by keys
whose ids are among the given accepted keys. -/
def verifyRootSigs (sigs : List (String × Bool)) (accepted : List String)
    (threshold : Nat) : Bool :=
  decide (threshold ≤ (sigs.filter fun s => s.2 && accepted.contains s.1).length)

/-- `validateRoot`: build the accepted key set, fail with the untrusted
root error when it is empty, otherwise verify the root signatures against
it with threshold 1. -/
def validateRoot (e : RootEnv) : Option RootErr :=
  let accepted := acceptedKeys e
  if accepted.length < 1 then some .untrustedRoot
  else if verifyRootSigs e.sigs accepted 1 then none
  else some .sigVerifyFail

/-- A concrete `validateRoot` environment: two root key ids, both decoding
to a pinned leaf whose CommonName matches the GUN, one valid signature. -/
def rootEnvW : RootEnv where
  gun := "example.com/app"
  keyIDs := ["k1", "k2"]
  keyMaterial := fun _ => [0]
  parseLeafCert := fun _ =>
    some ⟨[1], "subj", "example.com/app", false, true, 10, .strong 0, none⟩
  certStoreHas := fun s => s == "fp1"
  caVerify := fun _ => false
  fpr := fun _ => "fp1"
  sigs := [("k1", true)]

/-- A TUF key: cipher tag plus public material (`data.TUFKey`). -/
structure TUFKey where
  cipher : String
  material : List Nat
deriving DecidableEq, Repr

/-- Observable events of an `Initialize` run: fetching the timestamp key
from the remote, generating a fresh key for a role, signing a role, and
issuing a write of a role to the local metadata cache. -/
inductive InitEv
  | fetchTSKey
  | keygen (r : RoleName)
  | sign (r : RoleName)
  | write (r : RoleName)
deriving DecidableEq, Repr

/-- A role entry of the initial root body: threshold and key ids. -/
structure RoleSpec where
  threshold : Nat
  keyIDs : List String
deriving DecidableEq, Repr

/-- Environment of one `Initialize` run: outcomes of each fallible
sub-step in source order.  Fields whose errors the Go code drops on the
floor (`addCertResult`, `getRemoteStoreResult` — whose `err` is overwritten
by the next assignment without a check — the `json.Marshal` results, the
targets cache write) are present but never consulted by the embedding,
mirroring the code. -/
structure InitEnv where
  kid : TUFKey → String
  certToPEM : Cert → List Nat
  genCert : Except Nat Cert
  addCertResult : Except Nat Unit
  linkResult : Except Nat Unit
  getRemoteStoreResult : Except Nat Unit
  getTSKey : Except Nat TUFKey
  unmarshalTSOk : Bool
  createTargetsKey : Except Nat TUFKey
  createSnapshotKey : Except Nat TUFKey
  newFileStore : Except Nat Unit
  initRepoOk : Bool
  signRootResult : Except Nat Unit
  marshalRootOk : Bool
  setRootResult : Except Nat Unit
  signTargetsResult : Except Nat Unit
  marshalTargetsOk : Bool
  setTargetsResult : Except Nat Unit
  signSnapshotResult : Except Nat Unit
  marshalSnapshotOk : Bool
  setSnapshotResult : Except Nat Unit

/-- `Initialize`.  Returns the event trace and either the first error or
the role table of the constructed initial root body.  Error codes 100 and
101 stand for the unmarshalling and `InitRepo` errors. -/
def initOp (e : InitEnv) : List InitEv × Except Nat (List (RoleName × RoleSpec)) :=
  match e.genCert with
  | .error n => ([], .error n)
  | .ok rootCert =>
    let rootKey : TUFKey := ⟨"RSA", e.certToPEM rootCert⟩
    match e.linkResult with
    | .error n => ([], .error n)
    | .ok _ =>
      match e.getTSKey with
      | .error n => ([.fetchTSKey], .error n)
      | .ok tsRaw =>
        if !e.unmarshalTSOk then ([.fetchTSKey], .error 100)
        else
          let timestampKey : TUFKey := ⟨tsRaw.cipher, tsRaw.material⟩
          match e.createTargetsKey with
          | .error n => ([.fetchTSKey], .error n)
          | .ok targetsKey =>
            match e.createSnapshotKey with
            | .error n => ([.fetchTSKey, .keygen .targets], .error n)
            | .ok snapshotKey =>
              let roles : List (RoleName × RoleSpec) :=
                [(.root, ⟨1, [e.kid rootKey]⟩),
                 (.targets, ⟨1, [e.kid targetsKey]⟩),
                 (.snapshot, ⟨1, [e.kid snapshotKey]⟩),
                 (.timestamp, ⟨1, [e.kid timestampKey]⟩)]
              let tr := [InitEv.fetchTSKey, .keygen .targets, .keygen .snapshot]
              match e.newFileStore with
              | .error n => (tr, .error n)
              | .ok _ =>
                if !e.initRepoOk then (tr, .error 101)
                else
                  match e.signRootResult with
                  | .error n => (tr, .error n)
                  | .ok _ =>
                    let tr := tr ++ [.sign .root, .write .root]
                    match e.setRootResult with
                    | .error n => (tr, .error n)
                    | .ok _ =>
                      match e.signTargetsResult with
                      | .error n => (tr, .error n)
                      | .ok _ =>
                        let tr := tr ++ [.sign .targets, .write .targets]
                        match e.signSnapshotResult with
                        | .error n => (tr, .error n)
                        | .ok _ =>
                          let tr := tr ++ [.sign .snapshot, .write .snapshot]
                          match e.setSnapshotResult with
                          | .error n => (tr, .error n)
                          | .ok _ => (tr, .ok roles)

/-- Is the `Except` value a success? -/
def isOkE {ε α : Type} : Except ε α → Bool
  | .ok _ => true
  | .error _ => false

/-- Environment of one `GenRootKey` run. -/
structure GenRootEnv where
  generateKey : Except Nat TUFKey
  addEncryptedKeyResult : Except Nat Unit
deriving DecidableEq

/-- `GenRootKey`: generate an RSA key, store it encrypted, return its id.
The result of `AddEncryptedKey` is dropped by the code, so the returned
value depends only on the key generation. -/
def genRootKey (kid : TUFKey → String) (e : GenRootEnv) : Except Nat String :=
  match e.generateKey with
  | .error n => .error n
  | .ok privKey => .ok (kid privKey)

/-- Environment of one `saveMetadata` run. -/
structure SaveMetaEnv where
  signRootResult : Except Nat Unit
  marshalRootOk : Bool
  setRootResult : Except Nat Unit
deriving DecidableEq

/-- `saveMetadata`: sign root and write it to the cache.  The result of
`json.Marshal` is dropped by the code (`rootJSON, _ :=`). -/
def saveMetadata (e : SaveMetaEnv) : Except Nat Unit :=
  match e.signRootResult with
  | .error n => .error n
  | .ok _ => e.setRootResult

/-- Environment of one `snapshot` run (the method, part of which is also
inlined in the `Initialize` embedding).  The `json.Marshal` results,
`os.MkdirAll` and the targets `SetMeta` are dropped by the code. -/
structure SnapshotEnv where
  signTargetsResult : Except Nat Unit
  marshalTargetsOk : Bool
  mkdirAllResult : Except Nat Unit
  setTargetsResult : Except Nat Unit
  signSnapshotResult : Except Nat Unit
  marshalSnapshotOk : Bool
  setSnapshotResult : Except Nat Unit
deriving DecidableEq

/-- `snapshot`: sign each targets role and write it (marshal, `MkdirAll`
and the write result all dropped), then sign snapshot and return the
snapshot cache-write result. -/
def snapshotOp (e : SnapshotEnv) : Except Nat Unit :=
  match e.signTargetsResult with
  | .error n => .error n
  | .ok _ =>
    match e.signSnapshotResult with
    | .error n => .error n
    | .ok _ => e.setSnapshotResult

/-- Environment of one `bootstrapRepo` run: the fallible sub-steps in
source order.  The results of `SetRoot`, `SetTargets` and `SetSnapshot`
are dropped by the code. -/
structure BootstrapRepoEnv where
  newFileStore : Except Nat Unit
  getRootMeta : Except Nat Unit
  unmarshalRootOk : Bool
  setRootResult : Except Nat Unit
  getTargetsMeta : Except Nat Unit
  unmarshalTargetsOk : Bool
  setTargetsResult : Except Nat Unit
  getSnapshotMeta : Except Nat Unit
  unmarshalSnapshotOk : Bool
  setSnapshotResult : Except Nat Unit
deriving DecidableEq

/-- `bootstrapRepo`: build the filesystem store, then for root, targets
and snapshot fetch the cached JSON and unmarshal it, returning the first
error; the three `Set` results are dropped.  Error codes 100-102 stand for
the three unmarshalling errors. -/
def bootstrapRepo (e : BootstrapRepoEnv) : Except Nat Unit :=
  match e.newFileStore with
  | .error n => .error n
  | .ok _ =>
    match e.getRootMeta with
    | .error n => .error n
    | .ok _ =>
      if !e.unmarshalRootOk then .error 100
      else
        match e.getTargetsMeta with
        | .error n => .error n
        | .ok _ =>
          if !e.unmarshalTargetsOk then .error 101
          else
            match e.getSnapshotMeta with
            | .error n => .error n
            | .ok _ =>
              if !e.unmarshalSnapshotOk then .error 102
              else .ok ()

/-- An all-successful `Initialize` environment with constant key ids. -/
def envInitOk : InitEnv where
  kid := fun _ => "id"
  certToPEM := fun _ => [0]
  genCert := .ok ⟨[1], "s", "gun", false, true, 9, .strong 0, none⟩
  addCertResult := .ok ()
  linkResult := .ok ()
  getRemoteStoreResult := .ok ()
  getTSKey := .ok ⟨"RSA", [2]⟩
  unmarshalTSOk := true
  createTargetsKey := .ok ⟨"RSA", [3]⟩
  createSnapshotKey := .ok ⟨"RSA", [4]⟩
  newFileStore := .ok ()
  initRepoOk := true
  signRootResult := .ok ()
  marshalRootOk := true
  setRootResult := .ok ()
  signTargetsResult := .ok ()
  marshalTargetsOk := true
  setTargetsResult := .ok ()
  signSnapshotResult := .ok ()
  marshalSnapshotOk := true
  setSnapshotResult := .ok ()

/-- The caller-facing target record. -/
structure TargetArg where
  name : String
  hashes : List (String × List Nat)
  length : Int
deriving DecidableEq, Repr

/-- `data.FileMeta`: length plus hash map, the payload source of a
changelist entry. -/
structure FileMeta where
  length : Int
  hashes : List (String × List Nat)
deriving DecidableEq, Repr

/-- A changelist entry (`changelist.TufChange`): action, scope, type tag,
key, payload. -/
structure Change where
  action : String
  scope : String
  kind : String
  path : String
  payload : List Nat
deriving DecidableEq, Repr

/-- Modelled from the spec: `changelist.ActionCreate` (the changelist
package is not part of the excerpt); the create action tag. -/
def actionCreate : String := "create"

/-- Side effects other than changelist writes that an operation could
emit: network I/O and signing operations. -/
inductive SideEff
  | network
  | signing
deriving DecidableEq, Repr

/-- The parts of repository state `AddTarget` could conceivably touch:
the changelist, the local metadata cache, and the certificate stores. -/
structure RepoState where
  changelist : List Change
  localMeta : List (String × List Nat)
  certs : List Cert
deriving DecidableEq, Repr

/-- Environment of one `AddTarget` run. -/
structure AddTargetEnv where
  openChangelistOk : Bool
  marshalFileMeta : FileMeta → Option (List Nat)
  addOk : Bool
  closeOk : Bool

/-- `AddTarget`: open the changelist, marshal `{length, hashes}`, append a
create/targets/target entry keyed by the target name, close.  No other
operation appears in the code, so the side-effect trace is empty and only
the changelist field of the state changes. -/
def addTarget (e : AddTargetEnv) (st : RepoState) (t : TargetArg) :
    List SideEff × Except Nat RepoState :=
  if !e.openChangelistOk then ([], .error 0)
  else
    match e.marshalFileMeta ⟨t.length, t.hashes⟩ with
    | none => ([], .error 1)
    | some payload =>
      let c : Change := ⟨actionCreate, "targets", "target", t.name, payload⟩
      if !e.addOk then ([], .error 2)
      else if !e.closeOk then ([], .error 3)
      else ([], .ok { st with changelist := st.changelist ++ [c] })

/-- A successful `AddTarget` environment whose marshaller returns `[9]`. -/
def envAT : AddTargetEnv :=
  ⟨true, fun _ => some [9], true, true⟩

/-- Is the signature algorithm one of the three SHA-1 algorithms the code
filters (`SHA1WithRSA`, `DSAWithSHA1`, `ECDSAWithSHA1`)? -/
def isSHA1 : SigAlg → Bool
  | .sha1RSA => true
  | .sha1DSA => true
  | .sha1ECDSA => true
  | .strong _ => false

/-- The CA-store validator of `loadKeys`: CA flag, valid basic constraints,
a SubjectKeyId, unexpired, and not SHA-1 signed. -/
def caValidator (now : Nat) (c : Cert) : Bool :=
  c.isCA && c.basicConstraintsValid && c.subjectKeyId.isSome &&
    decide (now < c.notAfter) && !isSHA1 c.sigAlg

/-- The certificate-store validator of `loadKeys`: non-CA, unexpired, and
not SHA-1 signed. -/
def certValidator (now : Nat) (c : Cert) : Bool :=
  !c.isCA && decide (now < c.notAfter) && !isSHA1 c.sigAlg

/-- The in-memory maps of an `X509FileStore`, as association lists. -/
structure X509FileStore where
  fingerprintMap : List (String × Cert)
  fileMap : List (String × String)
  nameMap : List (String × List String)
deriving DecidableEq, Repr

/-- The store a fresh `X509FileStore` starts from before any load. -/
def emptyStore : X509FileStore := ⟨[], [], []⟩

/-- Go map assignment `m[k] = l`. -/
def nameMapSet (m : List (String × List String)) (k : String) (l : List String) :
    List (String × List String) :=
  if (m.lookup k).isSome then m.map (fun p => if p.1 = k then (p.1, l) else p)
  else (k, l) :: m

/-- `s.nameMap[name] = append(s.nameMap[name], fingerprint)`. -/
def nameMapAdd (m : List (String × List String)) (k v : String) :
    List (String × List String) :=
  nameMapSet m k (((m.lookup k).getD []) ++ [v])

/-- `addNamedCert`: reject a nil certificate, reject a fingerprint already
present, reject a certificate failing the validator; otherwise overwrite
the SubjectKeyId with the SHA-256 of the raw bytes, insert into the three
maps, and save to disk if the file does not exist (the save error, with the
maps already mutated, is returned). -/
def addNamedCert (fpr : Cert → String) (h256 : List Nat → List Nat)
    (validate : Cert → Bool) (s : X509FileStore) (cert? : Option Cert)
    (filename : String) (fileExists : Bool) (saveOk : Bool) :
    X509FileStore × Option String :=
  match cert? with
  | none => (s, some "adding nil Certificate to X509Store")
  | some cert =>
    let fingerprint := fpr cert
    if (s.fingerprintMap.lookup fingerprint).isSome then
      (s, some "certificate already in the store")
    else if !validate cert then (s, some "certificate validation failed")
    else
      let cert2 := { cert with subjectKeyId := some (h256 cert.raw) }
      let s2 : X509FileStore :=
        { fingerprintMap := (fingerprint, cert2) :: s.fingerprintMap
          fileMap := (fingerprint, filename) :: s.fileMap
          nameMap := nameMapAdd s.nameMap cert.rawSubject fingerprint }
      if !fileExists then
        if saveOk then (s2, none) else (s2, some "save failed")
      else (s2, none)

/-- `RemoveCert`: reject a nil certificate; delete the fingerprint from the
fingerprint and file maps, filter it out of the name entry, then remove the
file (whose error is returned with the maps already mutated). -/
def removeCert (fpr : Cert → String) (s : X509FileStore) (cert? : Option Cert)
    (osRemoveOk : Bool) : X509FileStore × Option String :=
  match cert? with
  | none => (s, some "removing nil Certificate from X509Store")
  | some cert =>
    let fingerprint := fpr cert
    let s2 : X509FileStore :=
      { fingerprintMap := s.fingerprintMap.filter (fun p => p.1 != fingerprint)
        fileMap := s.fileMap.filter (fun p => p.1 != fingerprint)
        nameMap := nameMapSet s.nameMap cert.rawSubject
          (((s.nameMap.lookup cert.rawSubject).getD []).filter (fun x => x != fingerprint)) }
    if !osRemoveOk then (s2, some "remove failed") else (s2, none)

/-- Loading a directory of certificates: each file goes through
`addNamedCert` with the store validator.  Modelled from the spec:
`loadCertsFromDir` itself is outside the excerpt; per the spec it adds each
certificate found on disk through the store, applying the filter. -/
def loadCerts (fpr : Cert → String) (h256 : List Nat → List Nat)
    (validate : Cert → Bool)
    (items : List (Option Cert × String × Bool × Bool)) : X509FileStore :=
  items.foldl
    (fun s it => (addNamedCert fpr h256 validate s it.1 it.2.1 it.2.2.1 it.2.2.2).1)
    emptyStore

/-- The two invariants of C10: fingerprints are pairwise distinct, and every
stored certificate carries the SHA-256 of its raw bytes as SubjectKeyId. -/
def storeInv (h256 : List Nat → List Nat) (s : X509FileStore) : Prop :=
  (s.fingerprintMap.map Prod.fst).Nodup ∧
  ∀ p ∈ s.fingerprintMap, p.2.subjectKeyId = some (h256 p.2.raw)

/-- Every certificate held in the store satisfies `P`. -/
def certsOK (P : Cert → Prop) (s : X509FileStore) : Prop :=
  ∀ p ∈ s.fingerprintMap, P p.2

/-- The property C9 states for CA-store members. -/
def caProp (now : Nat) (c : Cert) : Prop :=
  c.isCA = true ∧ now < c.notAfter ∧ isSHA1 c.sigAlg = false

/-- The property C9 states for certificate-store members. -/
def leafProp (now : Nat) (c : Cert) : Prop :=
  now < c.notAfter ∧ isSHA1 c.sigAlg = false

/-- A concrete fingerprint function, hash function and validator for the
witnesses. -/
def fpr0 : Cert → String := fun _ => "f"

/-- Identity stands in for SHA-256 in the witnesses. -/
def h2560 : List Nat → List Nat := fun l => l

/-- An always-true validator for the witnesses. -/
def val0 : Cert → Bool := fun _ => true

/-- A certificate already stored under fingerprint `f`, with its
SubjectKeyId equal to `h2560` of its raw bytes. -/
def certSt : Cert := ⟨[1], "s", "cn", false, true, 9, .strong 0, some [1]⟩

/-- A store holding `certSt` under fingerprint `f`. -/
def s1 : X509FileStore := ⟨[("f", certSt)], [("f", "p")], []⟩

/-- A CA certificate passing `caValidator` at time 5. -/
def caCertW : Cert := ⟨[1], "s", "cn", true, true, 9, .strong 0, some [0]⟩

/-- An expired CA certificate, failing `caProp` at time 5. -/
def caCertBad : Cert := ⟨[1], "s", "cn", true, true, 3, .strong 0, some [0]⟩

theorem serOnly_nil : serOnly [] := fun ev h => absurd h (List.not_mem_nil ev)

theorem serPhase_serOnly (e : PublishEnv) (u : Bool) : serOnly (serPhase e u).1 := by
  unfold serOnly serPhase
  repeat' split
  all_goals decide

theorem putsFull_allPut (u : Bool) : allPut (putsFull u) := by
  cases u <;> unfold allPut putsFull <;> decide

theorem allPut_take (l : List Ev) (k : Nat) (h : allPut l) : allPut (l.take k) :=
  fun ev hm => h ev (List.take_subset k l hm)

theorem putTS_spec (e : PublishEnv) :
    ∃ k, (putTS e).1 = [Ev.put .targets, Ev.put .snapshot].take k ∧
      ((putTS e).2 = none → (putTS e).1 = [Ev.put .targets, Ev.put .snapshot]) := by
  unfold putTS
  split
  · exact ⟨1, rfl, by simp⟩
  · split
    · exact ⟨2, rfl, by simp⟩
    · exact ⟨2, rfl, fun _ => rfl⟩

theorem putPhase_spec (e : PublishEnv) (u : Bool) :
    ∃ k, (putPhase e u).1 = (putsFull u).take k ∧
      ((putPhase e u).2 = none → (putPhase e u).1 = putsFull u) := by
  obtain ⟨k, hk, hfull⟩ := putTS_spec e
  unfold putPhase
  split
  · rename_i hu
    subst hu
    split
    · exact ⟨1, by simp [putsFull], by simp⟩
    · rcases h : putTS e with ⟨evs, r⟩
      rw [h] at hk hfull
      refine ⟨k + 1, ?_, ?_⟩
      · simp only [h, putsFull, if_pos]
        simpa using hk
      · intro hr
        simp only [h] at hr ⊢
        simp only [putsFull, if_pos]
        simpa using hfull hr
  · rename_i hu
    have hu' : u = false := by simpa using hu
    subst hu'
    exact ⟨k, by simpa [putsFull] using hk, by simpa [putsFull] using hfull⟩

theorem uploadPhase_spec (e : PublishEnv) (u : Bool) :
    ∃ s p, (uploadPhase e u).1 = s ++ p ∧ serOnly s ∧
      (∃ k, p = (putsFull u).take k) ∧
      ((uploadPhase e u).2 = none → p = putsFull u) := by
  unfold uploadPhase
  split
  · exact ⟨[], [], rfl, serOnly_nil, ⟨0, rfl⟩, by simp⟩
  · split
    · exact ⟨[], [], rfl, serOnly_nil, ⟨0, rfl⟩, by simp⟩
    · split
      · exact ⟨[], [], rfl, serOnly_nil, ⟨0, rfl⟩, by simp⟩
      · split
        · rename_i se err heq
          refine ⟨se, [], by simp, ?_, ⟨0, rfl⟩, by simp⟩
          have := serPhase_serOnly e u
          rw [heq] at this
          exact this
        · rename_i se heq
          obtain ⟨k, hk, hfull⟩ := putPhase_spec e u
          rcases h : putPhase e u with ⟨pe, r⟩
          rw [h] at hk hfull
          refine ⟨se, pe, by simp [h], ?_, ⟨k, hk⟩, ?_⟩
          · have := serPhase_serOnly e u
            rw [heq] at this
            exact this
          · intro hr
            simp only [h] at hr
            exact hfull hr

theorem resignPhase_spec (e : PublishEnv) (u0 : Bool) :
    (e.rootDirtyOrNearExpiry = false ∧ resignPhase e u0 = ([], none, u0)) ∨
    (e.rootDirtyOrNearExpiry = true ∧
      ∃ err, resignPhase e u0 = ([Ev.passCallback], some err, u0)) ∨
    (e.rootDirtyOrNearExpiry = true ∧
      resignPhase e u0 = ([Ev.passCallback], none, true)) := by
  unfold resignPhase
  split
  · rename_i hd
    rcases hp : e.getPass with n | _
    · exact Or.inr (Or.inl ⟨hd, ⟨.passErr n, by simp [hp]⟩⟩)
    · simp only [hp]
      split
      · exact Or.inr (Or.inl ⟨hd, ⟨.rootSignerErr, rfl⟩⟩)
      · split
        · exact Or.inr (Or.inl ⟨hd, ⟨.signRootErr, rfl⟩⟩)
        · exact Or.inr (Or.inr ⟨hd, rfl⟩)
  · rename_i hd
    exact Or.inl ⟨by simpa using hd, rfl⟩

theorem publishMain_spec (e : PublishEnv) (u0 : Bool) :
    ∃ c s p, (publishMain e u0).1 = c ++ (s ++ p) ∧
      (c = [] ∨ c = [Ev.passCallback]) ∧
      (c ≠ [] → e.rootDirtyOrNearExpiry = true) ∧
      serOnly s ∧
      (∃ k, p = (putsFull (e.rootDirtyOrNearExpiry || u0)).take k) ∧
      ((publishMain e u0).2 = none → p = putsFull (e.rootDirtyOrNearExpiry || u0)) := by
  unfold publishMain
  split
  · exact ⟨[], [], [], rfl, Or.inl rfl, by simp, serOnly_nil, ⟨0, rfl⟩, by simp⟩
  · split
    · exact ⟨[], [], [], rfl, Or.inl rfl, by simp, serOnly_nil, ⟨0, rfl⟩, by simp⟩
    · rcases resignPhase_spec e u0 with ⟨hd, hr⟩ | ⟨hd, err, hr⟩ | ⟨hd, hr⟩
      · rw [hr]
        simp only []
        obtain ⟨s, p, hsp, hser, hk, hfull⟩ := uploadPhase_spec e u0
        rcases h : uploadPhase e u0 with ⟨ue, r⟩
        rw [h] at hsp hfull
        refine ⟨[], s, p, by simpa [h] using hsp, Or.inl rfl, by simp, hser, ?_, ?_⟩
        · rw [hd]
          simpa using hk
        · intro hrr
          simp only [h] at hrr
          rw [hd]
          simpa using hfull hrr
      · rw [hr]
        exact ⟨[Ev.passCallback], [], [], by simp, Or.inr rfl, fun _ => hd, serOnly_nil,
          ⟨0, rfl⟩, by simp⟩
      · rw [hr]
        simp only []
        obtain ⟨s, p, hsp, hser, hk, hfull⟩ := uploadPhase_spec e true
        rcases h : uploadPhase e true with ⟨ue, r⟩
        rw [h] at hsp hfull
        refine ⟨[Ev.passCallback], s, p, by simpa [h] using hsp, Or.inr rfl, fun _ => hd,
          hser, ?_, ?_⟩
        · rw [hd]
          simpa using hk
        · intro hrr
          simp only [h] at hrr
          rw [hd]
          simpa using hfull hrr

theorem publish_trace_struct (e : PublishEnv) :
    ∃ c s p, (publish e).1 = c ++ (s ++ p) ∧
      (c = [] ∨ c = [Ev.passCallback]) ∧
      (c ≠ [] → e.rootDirtyOrNearExpiry = true) ∧
      serOnly s ∧
      (∃ k, p = (putsFull (updateRootFlag e)).take k) ∧
      ((publish e).2.1 = none → p = putsFull (updateRootFlag e)) := by
  rcases hb : e.bootstrapClient with be | uu
  · rcases be with _ | n
    · have hu : updateRootFlag e = true := by simp [updateRootFlag, hb]
      simp only [publish, hb]
      split
      · exact ⟨[], [], [], rfl, Or.inl rfl, by simp, serOnly_nil, ⟨0, rfl⟩, by simp⟩
      · split
        · exact ⟨[], [], [], rfl, Or.inl rfl, by simp, serOnly_nil, ⟨0, rfl⟩, by simp⟩
        · rcases hm : publishMain e true with ⟨t, r⟩
          obtain ⟨c, s, p, h1, h2, h3, h4, ⟨k, hk⟩, h6⟩ := publishMain_spec e true
          rw [hm] at h1 h6
          refine ⟨c, s, p, by simpa using h1, h2, h3, h4, ⟨k, ?_⟩, ?_⟩
          · rw [hu]
            simpa using hk
          · intro hr
            simp only at hr
            rw [hu]
            simpa using h6 hr
    · exact ⟨[], [], [], by simp [publish, hb], Or.inl rfl, by simp, serOnly_nil,
        ⟨0, rfl⟩, by simp [publish, hb]⟩
  · have hu : updateRootFlag e = e.rootDirtyOrNearExpiry := by
      simp [updateRootFlag, hb]
    simp only [publish, hb]
    split
    · exact ⟨[], [], [], rfl, Or.inl rfl, by simp, serOnly_nil, ⟨0, rfl⟩, by simp⟩
    · rcases hm : publishMain e false with ⟨t, r⟩
      obtain ⟨c, s, p, h1, h2, h3, h4, ⟨k, hk⟩, h6⟩ := publishMain_spec e false
      rw [hm] at h1 h6
      refine ⟨c, s, p, by simpa using h1, h2, h3, h4, ⟨k, ?_⟩, ?_⟩
      · rw [hu]
        simpa using hk
      · intro hr
        simp only at hr
        rw [hu]
        simpa using h6 hr

theorem publish_changelist_eq (e : PublishEnv) : (publish e).2.2 = e.changelist := by
  rcases hb : e.bootstrapClient with be | uu
  · rcases be with _ | n
    · simp only [publish, hb]
      split
      · rfl
      · split
        · rfl
        · rcases hm : publishMain e true with ⟨t, r⟩
          simp only [hm]
    · simp [publish, hb]
  · simp only [publish, hb]
    split
    · rfl
    · rcases hm : publishMain e false with ⟨t, r⟩
      simp only [hm]

theorem serOnly_no_pc {s : List Ev} (h : serOnly s) : Ev.passCallback ∉ s := by
  intro hm
  have := h _ hm
  simp [Ev.isSer] at this

theorem allPut_no_pc {p : List Ev} (h : allPut p) : Ev.passCallback ∉ p := by
  intro hm
  have := h _ hm
  simp [Ev.isPut] at this

theorem serOnly_noPut {s : List Ev} (h : serOnly s) : noPut s := by
  intro ev hm
  have := h ev hm
  cases ev <;> simp_all [Ev.isSer, Ev.isPut]

theorem pc_not_uploadPhase (e : PublishEnv) (u : Bool) :
    Ev.passCallback ∉ (uploadPhase e u).1 := by
  obtain ⟨s, p, htr, hser, ⟨k, hk⟩, _⟩ := uploadPhase_spec e u
  rw [htr]
  intro hm
  rcases List.mem_append.mp hm with hm | hm
  · exact serOnly_no_pc hser hm
  · exact allPut_no_pc (hk ▸ allPut_take _ _ (putsFull_allPut u)) hm

theorem resignPhase_passfail (e : PublishEnv) (u0 : Bool) (n : Nat)
    (hp : e.getPass = .error n) :
    resignPhase e u0 =
      if e.rootDirtyOrNearExpiry then ([Ev.passCallback], some (.passErr n), u0)
      else ([], none, u0) := by
  unfold resignPhase
  split <;> simp [hp]

theorem publishMain_passfail (e : PublishEnv) (u0 : Bool) (n : Nat)
    (hp : e.getPass = .error n) :
    Ev.passCallback ∈ (publishMain e u0).1 →
    publishMain e u0 = ([Ev.passCallback], some (.passErr n)) := by
  have hr := resignPhase_passfail e u0 n hp
  unfold publishMain
  split
  · intro hm
    exact absurd hm (List.not_mem_nil _)
  · split
    · intro hm
      exact absurd hm (List.not_mem_nil _)
    · cases hd : e.rootDirtyOrNearExpiry with
      | false =>
        rw [hd] at hr
        simp only [Bool.false_eq_true, if_false] at hr
        rw [hr]
        intro hm
        exfalso
        rcases h : uploadPhase e u0 with ⟨ue, r⟩
        have hnp := pc_not_uploadPhase e u0
        rw [h] at hnp
        simp only [h] at hm
        simp only [List.nil_append] at hm
        exact hnp hm
      | true =>
        rw [hd] at hr
        simp only [if_true] at hr
        rw [hr]
        intro _
        rfl

theorem publish_passfail (e : PublishEnv) (n : Nat) (hp : e.getPass = .error n) :
    Ev.passCallback ∈ (publish e).1 →
    (publish e).2.1 = some (.passErr n) ∧ (publish e).1 = [Ev.passCallback] := by
  rcases hb : e.bootstrapClient with be | uu
  · rcases be with _ | m
    · simp only [publish, hb]
      split
      · intro hm
        exact absurd hm (List.not_mem_nil _)
      · split
        · intro hm
          exact absurd hm (List.not_mem_nil _)
        · rcases h : publishMain e true with ⟨t, r⟩
          simp only [h]
          intro hm
          have h2 := publishMain_passfail e true n hp (by rw [h]; exact hm)
          rw [h] at h2
          injection h2 with h2a h2b
          exact ⟨h2b, h2a⟩
    · simp only [publish, hb]
      intro hm
      exact absurd hm (List.not_mem_nil _)
  · simp only [publish, hb]
    split
    · intro hm
      exact absurd hm (List.not_mem_nil _)
    · rcases h : publishMain e false with ⟨t, r⟩
      simp only [h]
      intro hm
      have h2 := publishMain_passfail e false n hp (by rw [h]; exact hm)
      rw [h] at h2
      injection h2 with h2a h2b
      exact ⟨h2b, h2a⟩

/-- C1, counterexample: a run of `Publish` that returns successfully (nil
error) while the changelist it returns with is the non-empty changelist it
was called with — the claim's "atomically truncated to empty before Publish
returns" is false on the code, which never truncates the changelist. -/
theorem publish_success_changelist_cex :
    (publish envAllOk).2.1 = none ∧ (publish envAllOk).2.2 ≠ [] := by
  constructor
  · decide
  · decide

/-- C1 (amended): `Publish` never modifies the changelist.  Both on a
successful (nil) return and on every error return, the changelist contents
are exactly what they were when `Publish` was called; no truncation ever
happens. -/
theorem publish_changelist_frame (e : PublishEnv) :
    (publish e).2.2 = e.changelist :=
  publish_changelist_eq e

/-- C3: a remote-bootstrap failure of kind NotFound is the only error that
`Publish` catches and reinterprets: any other bootstrap error is returned
to the caller unchanged with nothing else done; NotFound with no loadable
local metadata becomes NotInitialized; NotFound with local metadata present
falls back to the local path with the `updateRoot` flag set (the
continuation is `publishMain` at flag `true`). -/
theorem publish_bootstrap_errors (e : PublishEnv) :
    (∀ n, e.bootstrapClient = .error (.other n) →
      publish e = ([], some (.remoteErr n), e.changelist)) ∧
    (e.bootstrapClient = .error .notFound → e.localLoadOk = false →
      publish e = ([], some .notInitialized, e.changelist)) ∧
    (e.bootstrapClient = .error .notFound → e.localLoadOk = true →
      e.rootToSigned = true →
      (publish e).1 = (publishMain e true).1 ∧
      (publish e).2.1 = (publishMain e true).2) := by
  refine ⟨?_, ?_, ?_⟩
  · intro n hb
    simp [publish, hb]
  · intro hb hl
    simp [publish, hb, hl]
  · intro hb hl hr
    rcases hm : publishMain e true with ⟨t, r⟩
    simp [publish, hb, hl, hr, hm]

/-- C3, witness: at a concrete environment whose bootstrap fails with a
non-NotFound error, `Publish` returns that very error. -/
theorem publish_bootstrap_errors_witness :
    envBootOther.bootstrapClient = .error (.other 7) ∧
    publish envBootOther = ([], some (.remoteErr 7), envBootOther.changelist) :=
  ⟨rfl, (publish_bootstrap_errors envBootOther).1 7 rfl⟩

/-- C4: in every run of `Publish` the event trace splits into a PUT-free
part followed by a PUT-only part (so every completed serialization precedes
every issued PUT); the issued PUTs always form a prefix of the sequence
root (iff the `updateRoot` flag is set), targets, snapshot; the timestamp
role is never uploaded; and on a successful run the full PUT sequence was
issued in exactly that order. -/
theorem publish_upload_order (e : PublishEnv) :
    (∃ a b, (publish e).1 = a ++ b ∧ noPut a ∧ allPut b) ∧
    (∃ k, (publish e).1.filter Ev.isPut = (putsFull (updateRootFlag e)).take k) ∧
    Ev.put RoleName.timestamp ∉ (publish e).1 ∧
    ((publish e).2.1 = none →
      (publish e).1.filter Ev.isPut = putsFull (updateRootFlag e)) := by
  obtain ⟨c, s, p, htr, hc, hcd, hser, ⟨k, hk⟩, hsucc⟩ := publish_trace_struct e
  have hnpc : noPut c := by
    rcases hc with rfl | rfl
    · intro ev hm
      exact absurd hm (List.not_mem_nil ev)
    · intro ev hm
      simp only [List.mem_singleton] at hm
      subst hm
      rfl
  have hnps : noPut s := serOnly_noPut hser
  have hap : allPut p := hk ▸ allPut_take _ _ (putsFull_allPut _)
  have hfilter : (publish e).1.filter Ev.isPut = p := by
    rw [htr, List.filter_append, List.filter_append]
    rw [List.filter_eq_nil_iff.mpr (fun ev hm => by simp [hnpc ev hm]),
      List.filter_eq_nil_iff.mpr (fun ev hm => by simp [hnps ev hm]),
      List.filter_eq_self.mpr hap]
    simp
  refine ⟨⟨c ++ s, p, by rw [htr, List.append_assoc], ?_, hap⟩, ⟨k, by rw [hfilter, hk]⟩,
    ?_, ?_⟩
  · intro ev hm
    rcases List.mem_append.mp hm with hm | hm
    · exact hnpc ev hm
    · exact hnps ev hm
  · rw [htr]
    intro hm
    rcases List.mem_append.mp hm with hm | hm
    · have := hnpc _ hm
      simp [Ev.isPut] at this
    · rcases List.mem_append.mp hm with hm | hm
      · have := hnps _ hm
        simp [Ev.isPut] at this
      · have hmem : Ev.put RoleName.timestamp ∈ putsFull (updateRootFlag e) :=
          List.take_subset _ _ (hk ▸ hm)
        cases hfl : updateRootFlag e <;> rw [hfl] at hmem <;> revert hmem <;> decide
  · intro hres
    rw [hfilter]
    exact hsucc hres

/-- C4, witness: at a concrete fully successful environment the PUT
sequence issued is exactly targets then snapshot (root not dirty, bootstrap
succeeded, so `updateRoot` is unset). -/
theorem publish_upload_order_witness :
    (publish envAllOk).2.1 = none ∧
    (publish envAllOk).1.filter Ev.isPut = putsFull (updateRootFlag envAllOk) :=
  ⟨by decide, (publish_upload_order envAllOk).2.2.2 (by decide)⟩

/-- C5: in every run of `Publish` the passphrase callback fires at most
once; it fires only when root is dirty or near expiry; and whenever it was
invoked and returned an error, `Publish` returns that error with no PUT
ever issued and the changelist unchanged. -/
theorem publish_passphrase_once (e : PublishEnv) :
    (publish e).1.count Ev.passCallback ≤ 1 ∧
    (Ev.passCallback ∈ (publish e).1 → e.rootDirtyOrNearExpiry = true) ∧
    (∀ n, e.getPass = .error n → Ev.passCallback ∈ (publish e).1 →
      (publish e).2.1 = some (.passErr n) ∧
      (∀ r, Ev.put r ∉ (publish e).1) ∧
      (publish e).2.2 = e.changelist) := by
  obtain ⟨c, s, p, htr, hc, hcd, hser, ⟨k, hk⟩, _⟩ := publish_trace_struct e
  have hps : Ev.passCallback ∉ s := serOnly_no_pc hser
  have hpp : Ev.passCallback ∉ p :=
    allPut_no_pc (hk ▸ allPut_take _ _ (putsFull_allPut _))
  refine ⟨?_, ?_, ?_⟩
  · rw [htr, List.count_append, List.count_append]
    rw [List.count_eq_zero.mpr hps, List.count_eq_zero.mpr hpp]
    rcases hc with rfl | rfl
    · decide
    · decide
  · intro hm
    rw [htr] at hm
    rcases List.mem_append.mp hm with hm | hm
    · refine hcd ?_
      intro hnil
      rw [hnil] at hm
      exact absurd hm (List.not_mem_nil _)
    · rcases List.mem_append.mp hm with hm | hm
      · exact absurd hm hps
      · exact absurd hm hpp
  · intro n hp hm
    obtain ⟨h1, h2⟩ := publish_passfail e n hp hm
    refine ⟨h1, ?_, publish_changelist_eq e⟩
    intro r hput
    rw [h2] at hput
    simp at hput

/-- C5, witness: at a concrete environment with a dirty root whose
passphrase callback fails with code 3, the callback fired, `Publish`
returns that error and no PUT was issued. -/
theorem publish_passphrase_once_witness :
    envPassFail.getPass = .error 3 ∧
    Ev.passCallback ∈ (publish envPassFail).1 ∧
    (publish envPassFail).2.1 = some (.passErr 3) ∧
    Ev.put RoleName.snapshot ∉ (publish envPassFail).1 := by
  have h := (publish_passphrase_once envPassFail).2.2 3 (by decide) (by decide)
  exact ⟨rfl, by decide, h.1, h.2.1 RoleName.snapshot⟩

/-- C2: a root-role key id is accepted by `validateRoot` iff its material
decodes to a leaf certificate that is either held by the certificate store
under the leaf's content-hash identifier with CommonName equal to the GUN,
or chains to the local CA store; an empty accepted set fails with the
untrusted-root error; otherwise verification succeeds iff at least one
valid signature is keyed in the accepted set. -/
theorem validateRoot_spec (e : RootEnv) :
    (∀ fp ∈ e.keyIDs, (fp ∈ acceptedKeys e ↔
      ∃ leaf, e.parseLeafCert (e.keyMaterial fp) = some leaf ∧
        ((e.certStoreHas (e.fpr leaf) = true ∧ leaf.commonName = e.gun) ∨
         e.caVerify leaf = true))) ∧
    (acceptedKeys e = [] → validateRoot e = some .untrustedRoot) ∧
    (acceptedKeys e ≠ [] →
      (validateRoot e = none ↔
        1 ≤ (e.sigs.filter fun s => s.2 && (acceptedKeys e).contains s.1).length)) := by
  refine ⟨?_, ?_, ?_⟩
  · intro fp hfp
    unfold acceptedKeys
    rw [List.mem_filter]
    rcases h : e.parseLeafCert (e.keyMaterial fp) with _ | leaf
    · simp [h, hfp]
    · simp [h, hfp, Bool.or_eq_true, Bool.and_eq_true]
  · intro hemp
    unfold validateRoot
    rw [hemp]
    rfl
  · intro hne
    have hlen : ¬((acceptedKeys e).length < 1) := by
      simpa [Nat.lt_one_iff] using hne
    unfold validateRoot verifyRootSigs
    rw [if_neg hlen]
    by_cases hth :
      1 ≤ (e.sigs.filter fun s => s.2 && (acceptedKeys e).contains s.1).length
    · rw [if_pos (decide_eq_true hth)]
      exact ⟨fun _ => hth, fun _ => rfl⟩
    · have hd : ¬(decide
          (1 ≤ (e.sigs.filter fun s => s.2 && (acceptedKeys e).contains s.1).length) = true) := by
        rw [decide_eq_false hth]
        exact Bool.false_ne_true
      rw [if_neg hd]
      exact ⟨fun h => Option.noConfusion h, fun h => absurd h hth⟩

/-- C2, witness: at the concrete environment `rootEnvW` the key id `k1` is
accepted and `validateRoot` succeeds. -/
theorem validateRoot_spec_witness :
    "k1" ∈ acceptedKeys rootEnvW ∧ validateRoot rootEnvW = none := by
  refine ⟨by decide, ?_⟩
  exact ((validateRoot_spec rootEnvW).2.2 (by decide)).mpr (by decide)

/-- C6: a successful `Initialize` fetched the timestamp key from the
remote, generated fresh targets and snapshot keys, produced a root body
whose four roles each list exactly one key with threshold 1, and signed
and wrote root, targets and snapshot to the local cache in that order;
and `Initialize` can only succeed when fetching the timestamp key and both
key generations succeeded. -/
theorem initOp_spec (e : InitEnv) :
    (∀ roles, (initOp e).2 = .ok roles →
      (initOp e).1 =
        [.fetchTSKey, .keygen .targets, .keygen .snapshot,
         .sign .root, .write .root, .sign .targets, .write .targets,
         .sign .snapshot, .write .snapshot] ∧
      roles.map Prod.fst = [.root, .targets, .snapshot, .timestamp] ∧
      (∀ rs ∈ roles, rs.2.threshold = 1 ∧ rs.2.keyIDs.length = 1)) ∧
    (isOkE (initOp e).2 = true →
      isOkE e.getTSKey = true ∧ isOkE e.createTargetsKey = true ∧
      isOkE e.createSnapshotKey = true) := by
  unfold initOp
  repeat' split
  all_goals refine ⟨fun roles hr => ?_, fun hk => ?_⟩
  all_goals try exact Except.noConfusion hr
  all_goals try exact Bool.noConfusion hk
  · injection hr with h
    subst h
    refine ⟨rfl, rfl, ?_⟩
    intro rs hrs
    simp only [List.mem_cons, List.mem_singleton] at hrs
    rcases hrs with rfl | rfl | rfl | rfl | hrs
    · exact ⟨rfl, rfl⟩
    · exact ⟨rfl, rfl⟩
    · exact ⟨rfl, rfl⟩
    · exact ⟨rfl, rfl⟩
    · exact absurd hrs (List.not_mem_nil rs)
  · simp_all [isOkE]

/-- C6, witness: at the all-successful environment, `Initialize` returns
the four-role table, and the role facts follow by the theorem. -/
theorem initOp_spec_witness :
    (initOp envInitOk).2 =
      .ok [(.root, ⟨1, ["id"]⟩), (.targets, ⟨1, ["id"]⟩),
           (.snapshot, ⟨1, ["id"]⟩), (.timestamp, ⟨1, ["id"]⟩)] ∧
    (initOp envInitOk).1.length = 9 := by
  have h := (initOp_spec envInitOk).1
    [(.root, ⟨1, ["id"]⟩), (.targets, ⟨1, ["id"]⟩),
     (.snapshot, ⟨1, ["id"]⟩), (.timestamp, ⟨1, ["id"]⟩)] (by decide)
  refine ⟨by decide, ?_⟩
  rw [h.1]
  rfl

/-- C7, counterexample: `GenRootKey` succeeds although the encrypted-key
store write failed — the sub-step error is silently discarded, refuting
the claim that no error is silently discarded. -/
theorem genRootKey_discard_cex :
    (⟨.ok ⟨"RSA", [1]⟩, .error 5⟩ : GenRootEnv).addEncryptedKeyResult = .error 5 ∧
    genRootKey (fun _ => "rootid") ⟨.ok ⟨"RSA", [1]⟩, .error 5⟩ = .ok "rootid" :=
  ⟨rfl, rfl⟩

/-- C7 (amended): the claim's propagation policy fails — errors arising in
sub-steps are silently discarded, among them at the sites the claim cites
and at further ones: each operation's result is unchanged when the
encrypted-key store write of `GenRootKey`, the certificate-store write and
the `getRemoteStore` call of `Initialize`, the `json.Marshal` calls of
`saveMetadata` and `snapshot`, `snapshot`'s `MkdirAll` and targets
cache write, or `bootstrapRepo`'s `SetRoot`, `SetTargets` and
`SetSnapshot` calls fail; in particular `GenRootKey` returns success
whenever key generation succeeds, and `bootstrapRepo` returns success with
all three `Set` results failing. -/
theorem error_discard_sites (kid : TUFKey → String) (g : GenRootEnv)
    (e : InitEnv) (sm : SaveMetaEnv) (sn : SnapshotEnv)
    (br : BootstrapRepoEnv) (k : TUFKey) (n n1 n2 n3 : Nat) :
    genRootKey kid { g with addEncryptedKeyResult := .error n } =
      genRootKey kid { g with addEncryptedKeyResult := .ok () } ∧
    genRootKey kid ⟨.ok k, .error n⟩ = .ok (kid k) ∧
    initOp { e with addCertResult := .error n,
                    getRemoteStoreResult := .error n } =
      initOp { e with addCertResult := .ok (),
                      getRemoteStoreResult := .ok () } ∧
    initOp { e with marshalRootOk := false, marshalTargetsOk := false,
                    marshalSnapshotOk := false, setTargetsResult := .error n } =
      initOp { e with marshalRootOk := true, marshalTargetsOk := true,
                      marshalSnapshotOk := true, setTargetsResult := .ok () } ∧
    saveMetadata { sm with marshalRootOk := false } =
      saveMetadata { sm with marshalRootOk := true } ∧
    snapshotOp { sn with marshalTargetsOk := false, mkdirAllResult := .error n,
                         setTargetsResult := .error n,
                         marshalSnapshotOk := false } =
      snapshotOp { sn with marshalTargetsOk := true, mkdirAllResult := .ok (),
                           setTargetsResult := .ok (),
                           marshalSnapshotOk := true } ∧
    bootstrapRepo { br with setRootResult := .error n1,
                            setTargetsResult := .error n2,
                            setSnapshotResult := .error n3 } =
      bootstrapRepo { br with setRootResult := .ok (),
                              setTargetsResult := .ok (),
                              setSnapshotResult := .ok () } ∧
    bootstrapRepo ⟨.ok (), .ok (), true, .error n1, .ok (), true, .error n2,
      .ok (), true, .error n3⟩ = .ok () :=
  ⟨rfl, rfl, rfl, rfl, rfl, rfl, rfl, rfl⟩

/-- C8: `AddTarget` emits no network or signing side effect, and a
successful run appends exactly one changelist entry with action create,
scope targets, type target, key the target name and payload the serialized
`{length, hashes}`, leaving every other state component unchanged. -/
theorem addTarget_spec (e : AddTargetEnv) (st : RepoState) (t : TargetArg) :
    (addTarget e st t).1 = [] ∧
    (∀ st2, (addTarget e st t).2 = .ok st2 →
      ∃ payload, e.marshalFileMeta ⟨t.length, t.hashes⟩ = some payload ∧
        st2.changelist = st.changelist ++
          [⟨actionCreate, "targets", "target", t.name, payload⟩] ∧
        st2.localMeta = st.localMeta ∧ st2.certs = st.certs) := by
  unfold addTarget
  repeat' split
  all_goals refine ⟨rfl, fun st2 hr => ?_⟩
  all_goals try exact Except.noConfusion hr
  rename_i x payload hpay hadd hclose
  simp only [Except.ok.injEq] at hr
  subst hr
  exact ⟨payload, hpay, rfl, rfl, rfl⟩

/-- C8, witness: a concrete successful `AddTarget` run appending one entry
to an empty changelist. -/
theorem addTarget_spec_witness :
    (addTarget envAT ⟨[], [], []⟩ ⟨"linux-amd64", [("sha256", [0])], 1024⟩).2 =
      .ok (⟨[⟨"create", "targets", "target", "linux-amd64", [9]⟩], [], []⟩ : RepoState) ∧
    ∃ payload,
      envAT.marshalFileMeta ⟨(1024 : Int), [("sha256", [0])]⟩ = some payload ∧
      (⟨[⟨"create", "targets", "target", "linux-amd64", [9]⟩], [], []⟩ :
          RepoState).changelist =
        ([] : List Change) ++
          [⟨actionCreate, "targets", "target", "linux-amd64", payload⟩] := by
  refine ⟨by decide, ?_⟩
  obtain ⟨payload, h1, h2, _⟩ :=
    (addTarget_spec envAT ⟨[], [], []⟩ ⟨"linux-amd64", [("sha256", [0])], 1024⟩).2
      (⟨[⟨"create", "targets", "target", "linux-amd64", [9]⟩], [], []⟩ : RepoState)
      (by decide)
  exact ⟨payload, h1, h2⟩

theorem lookup_none_not_mem {β : Type} (k : String) (l : List (String × β))
    (h : (l.lookup k).isSome = false) : k ∉ l.map Prod.fst := by
  induction l with
  | nil => simp
  | cons hd tl ih =>
    rcases hd with ⟨a, b⟩
    by_cases hk : k = a
    · exfalso
      subst hk
      rw [List.lookup, beq_self_eq_true] at h
      exact absurd h (by simp)
    · have hba : (k == a) = false := beq_eq_false_iff_ne.mpr hk
      have htl : (tl.lookup k).isSome = false := by
        rw [List.lookup, hba] at h
        exact h
      simp only [List.map_cons, List.mem_cons]
      rintro (rfl | hmem)
      · exact hk rfl
      · exact ih htl hmem

theorem addNamedCert_preserves {P : Cert → Prop} (fpr : Cert → String)
    (h256 : List Nat → List Nat) (validate : Cert → Bool)
    (hv : ∀ c, validate c = true → P c)
    (hstable : ∀ c skid, P c → P { c with subjectKeyId := skid })
    (s : X509FileStore) (cert? : Option Cert) (fn : String) (fe sv : Bool)
    (hs : certsOK P s) :
    certsOK P (addNamedCert fpr h256 validate s cert? fn fe sv).1 := by
  rcases cert? with _ | cert
  · exact hs
  · rw [addNamedCert]
    by_cases hdup : (s.fingerprintMap.lookup (fpr cert)).isSome = true
    · rw [if_pos hdup]
      exact hs
    · rw [if_neg hdup]
      by_cases hval : validate cert = true
      · rw [if_neg (by simp [hval])]
        have hP : certsOK P
            ⟨(fpr cert, { cert with subjectKeyId := some (h256 cert.raw) }) ::
                s.fingerprintMap,
             (fpr cert, fn) :: s.fileMap,
             nameMapAdd s.nameMap cert.rawSubject (fpr cert)⟩ := by
          intro p hp
          simp only [List.mem_cons] at hp
          rcases hp with rfl | hp
          · exact hstable cert _ (hv cert hval)
          · exact hs _ hp
        rcases fe with _ | _ <;> rcases sv with _ | _ <;> simp <;> exact hP
      · rw [if_pos (by simp [hval])]
        exact hs

theorem removeCert_preserves {P : Cert → Prop} (fpr : Cert → String)
    (s : X509FileStore) (cert? : Option Cert) (rmOk : Bool)
    (hs : certsOK P s) :
    certsOK P (removeCert fpr s cert? rmOk).1 := by
  rcases cert? with _ | cert
  · exact hs
  · rw [removeCert]
    have h2 : certsOK P
        ⟨s.fingerprintMap.filter (fun p => p.1 != fpr cert),
         s.fileMap.filter (fun p => p.1 != fpr cert),
         nameMapSet s.nameMap cert.rawSubject
           (((s.nameMap.lookup cert.rawSubject).getD []).filter
             (fun x => x != fpr cert))⟩ :=
      fun p hp => hs _ (List.mem_of_mem_filter hp)
    rcases rmOk with _ | _ <;> simp <;> exact h2

theorem addNamedCert_inv (fpr : Cert → String) (h256 : List Nat → List Nat)
    (validate : Cert → Bool) (s : X509FileStore) (cert? : Option Cert)
    (fn : String) (fe sv : Bool) (hs : storeInv h256 s) :
    storeInv h256 (addNamedCert fpr h256 validate s cert? fn fe sv).1 := by
  rcases cert? with _ | cert
  · exact hs
  · rw [addNamedCert]
    by_cases hdup : (s.fingerprintMap.lookup (fpr cert)).isSome = true
    · rw [if_pos hdup]
      exact hs
    · rw [if_neg hdup]
      by_cases hval : validate cert = true
      · rw [if_neg (by simp [hval])]
        have h2 : storeInv h256
            ⟨(fpr cert, { cert with subjectKeyId := some (h256 cert.raw) }) ::
                s.fingerprintMap,
             (fpr cert, fn) :: s.fileMap,
             nameMapAdd s.nameMap cert.rawSubject (fpr cert)⟩ := by
          refine ⟨?_, ?_⟩
          · simp only [List.map_cons, List.nodup_cons]
            exact ⟨lookup_none_not_mem _ _ (Bool.eq_false_iff.mpr hdup), hs.1⟩
          · intro p hp
            simp only [List.mem_cons] at hp
            rcases hp with rfl | hp
            · rfl
            · exact hs.2 _ hp
        rcases fe with _ | _ <;> rcases sv with _ | _ <;> simp <;> exact h2
      · rw [if_pos (by simp [hval])]
        exact hs

theorem removeCert_inv (fpr : Cert → String) (h256 : List Nat → List Nat)
    (s : X509FileStore) (cert? : Option Cert) (rmOk : Bool)
    (hs : storeInv h256 s) :
    storeInv h256 (removeCert fpr s cert? rmOk).1 := by
  rcases cert? with _ | cert
  · exact hs
  · rw [removeCert]
    have h2 : storeInv h256
        ⟨s.fingerprintMap.filter (fun p => p.1 != fpr cert),
         s.fileMap.filter (fun p => p.1 != fpr cert),
         nameMapSet s.nameMap cert.rawSubject
           (((s.nameMap.lookup cert.rawSubject).getD []).filter
             (fun x => x != fpr cert))⟩ := by
      refine ⟨?_, fun p hp => hs.2 _ (List.mem_of_mem_filter hp)⟩
      exact hs.1.sublist ((List.filter_sublist _).map Prod.fst)
    rcases rmOk with _ | _ <;> simp <;> exact h2

theorem loadCerts_preserves {P : Cert → Prop} (fpr : Cert → String)
    (h256 : List Nat → List Nat) (validate : Cert → Bool)
    (hv : ∀ c, validate c = true → P c)
    (hstable : ∀ c skid, P c → P { c with subjectKeyId := skid })
    (items : List (Option Cert × String × Bool × Bool)) :
    certsOK P (loadCerts fpr h256 validate items) := by
  unfold loadCerts
  have key : ∀ (l : List (Option Cert × String × Bool × Bool)) (s : X509FileStore),
      certsOK P s →
      certsOK P (l.foldl
        (fun s it => (addNamedCert fpr h256 validate s it.1 it.2.1 it.2.2.1 it.2.2.2).1) s) := by
    intro l
    induction l with
    | nil => intro s hs; exact hs
    | cons hd tl ih =>
      intro s hs
      exact ih _ (addNamedCert_preserves fpr h256 validate hv hstable s hd.1
        hd.2.1 hd.2.2.1 hd.2.2.2 hs)
  exact key items emptyStore (fun p hp => absurd hp (List.not_mem_nil p))

/-- C9: the CA-store validator admits only CA, unexpired, non-SHA-1
certificates and the certificate-store validator only unexpired non-SHA-1
ones; both properties are invariants of the stores: they hold of every
load (which filters each certificate on add) and are preserved by every
add and remove; and a certificate failing the property is rejected by the
add. -/
theorem store_filter_spec (now : Nat) (fpr : Cert → String)
    (h256 : List Nat → List Nat) (s : X509FileStore) (cert? : Option Cert)
    (fn : String) (fe sv rmOk : Bool) :
    (∀ c, caValidator now c = true → caProp now c) ∧
    (∀ c, certValidator now c = true → leafProp now c) ∧
    (certsOK (caProp now) s →
      certsOK (caProp now) (addNamedCert fpr h256 (caValidator now) s cert? fn fe sv).1) ∧
    (certsOK (leafProp now) s →
      certsOK (leafProp now) (addNamedCert fpr h256 (certValidator now) s cert? fn fe sv).1) ∧
    (certsOK (caProp now) s → certsOK (caProp now) (removeCert fpr s cert? rmOk).1) ∧
    (certsOK (leafProp now) s → certsOK (leafProp now) (removeCert fpr s cert? rmOk).1) ∧
    (∀ items, certsOK (caProp now) (loadCerts fpr h256 (caValidator now) items)) ∧
    (∀ items, certsOK (leafProp now) (loadCerts fpr h256 (certValidator now) items)) ∧
    (∀ c, ¬caProp now c →
      (addNamedCert fpr h256 (caValidator now) s (some c) fn fe sv).2.isSome = true) ∧
    (∀ c, ¬leafProp now c →
      (addNamedCert fpr h256 (certValidator now) s (some c) fn fe sv).2.isSome = true) := by
  have hca : ∀ c, caValidator now c = true → caProp now c := by
    intro c h
    simp only [caValidator, Bool.and_eq_true, decide_eq_true_eq,
      Bool.not_eq_true'] at h
    exact ⟨h.1.1.1.1, h.1.2, h.2⟩
  have hleaf : ∀ c, certValidator now c = true → leafProp now c := by
    intro c h
    simp only [certValidator, Bool.and_eq_true, decide_eq_true_eq,
      Bool.not_eq_true'] at h
    exact ⟨h.1.2, h.2⟩
  have hcastable : ∀ c skid, caProp now c → caProp now { c with subjectKeyId := skid } :=
    fun c skid h => h
  have hleafstable : ∀ c skid, leafProp now c → leafProp now { c with subjectKeyId := skid } :=
    fun c skid h => h
  have hrej : ∀ (v : Cert → Bool) (P : Cert → Prop), (∀ c, v c = true → P c) →
      ∀ c, ¬P c → (addNamedCert fpr h256 v s (some c) fn fe sv).2.isSome = true := by
    intro v P hv c hc
    rw [addNamedCert]
    by_cases hdup : (s.fingerprintMap.lookup (fpr c)).isSome = true
    · rw [if_pos hdup]
      rfl
    · have hvf : v c = false := by
        rcases hvc : v c with _ | _
        · rfl
        · exact absurd (hv c hvc) hc
      rw [if_neg hdup, if_pos (by simp [hvf])]
      rfl
  exact ⟨hca, hleaf,
    addNamedCert_preserves fpr h256 _ hca hcastable s cert? fn fe sv,
    addNamedCert_preserves fpr h256 _ hleaf hleafstable s cert? fn fe sv,
    removeCert_preserves fpr s cert? rmOk,
    removeCert_preserves fpr s cert? rmOk,
    loadCerts_preserves fpr h256 _ hca hcastable,
    loadCerts_preserves fpr h256 _ hleaf hleafstable,
    hrej _ _ hca, hrej _ _ hleaf⟩

/-- C9, witness: a concrete valid CA certificate is admitted with the
claimed properties, and a concrete expired CA certificate is rejected by
the add. -/
theorem store_filter_spec_witness :
    caValidator 5 caCertW = true ∧ caProp 5 caCertW ∧
    ¬caProp 5 caCertBad ∧
    (addNamedCert fpr0 h2560 (caValidator 5) s1 (some caCertBad) "q" true
      true).2.isSome = true := by
  have h := store_filter_spec 5 fpr0 h2560 s1 (some caCertBad) "q" true true true
  exact ⟨by decide, h.1 caCertW (by decide), by unfold caProp; decide,
    h.2.2.2.2.2.2.2.2.1 caCertBad (by unfold caProp; decide)⟩

/-- C10: a nil certificate is rejected by add and remove; adding a
certificate whose content-hash fingerprint is already present fails and
leaves the store unchanged; the fresh store satisfies the store invariant
(pairwise-distinct fingerprints, every stored certificate carrying the
SHA-256 of its raw bytes as SubjectKeyId); and the invariant is preserved
by every add and every remove. -/
theorem x509_store_spec (fpr : Cert → String) (h256 : List Nat → List Nat)
    (validate : Cert → Bool) (s : X509FileStore) (cert? : Option Cert)
    (fn : String) (fe sv rmOk : Bool) :
    addNamedCert fpr h256 validate s none fn fe sv =
      (s, some "adding nil Certificate to X509Store") ∧
    removeCert fpr s none rmOk =
      (s, some "removing nil Certificate from X509Store") ∧
    (∀ c, (s.fingerprintMap.lookup (fpr c)).isSome = true →
      addNamedCert fpr h256 validate s (some c) fn fe sv =
        (s, some "certificate already in the store")) ∧
    storeInv h256 emptyStore ∧
    (storeInv h256 s → storeInv h256 (addNamedCert fpr h256 validate s cert? fn fe sv).1) ∧
    (storeInv h256 s → storeInv h256 (removeCert fpr s cert? rmOk).1) := by
  refine ⟨rfl, rfl, ?_, ?_, ?_, ?_⟩
  · intro c hdup
    rw [addNamedCert, if_pos hdup]
  · exact ⟨List.nodup_nil, fun p hp => absurd hp (List.not_mem_nil p)⟩
  · exact addNamedCert_inv fpr h256 validate s cert? fn fe sv
  · exact removeCert_inv fpr h256 s cert? rmOk

/-- C10, witness: at the concrete store `s1` the duplicate add fails and
leaves the store unchanged, and the invariant holds and is preserved by a
remove. -/
theorem x509_store_spec_witness :
    (s1.fingerprintMap.lookup (fpr0 certSt)).isSome = true ∧
    addNamedCert fpr0 h2560 val0 s1 (some certSt) "q" true true =
      (s1, some "certificate already in the store") ∧
    storeInv h2560 s1 ∧
    storeInv h2560 (removeCert fpr0 s1 (some certSt) true).1 := by
  have hinv : storeInv h2560 s1 := by
    unfold storeInv
    exact ⟨by decide, by decide⟩
  have h := x509_store_spec fpr0 h2560 val0 s1 (some certSt) "q" true true true
  exact ⟨by decide, h.2.2.1 certSt (by decide), hinv, h.2.2.2.2.2 hinv⟩

end Notary
